import Mathlib

/-!
Shallow embedding of the core of the tty-interface library.

The repository contains two generations of the engine side by side:

* the modular generation: `src/position.rs` (`Position` with its `(y, x)`
  lexicographic `Ord`), `src/style.rs` (`Color`, `Style`), `src/state.rs`
  (`Cell`, `State` with its sparse `BTreeMap` cell grid and `BTreeSet`
  dirty set);
* the early monolithic `src/lib.rs` (its own `Interface` over a dense
  `Vec<Vec<String>>` grid, with `set` and `apply`).

Both are embedded below.  `BTreeMap Position Cell` is modelled as an
association list kept in ascending key order by an ordered insert
(`mapInsert`), `BTreeSet Position` as an ordered duplicate-free list
(`setInsert`); `u16` arithmetic is modelled on `Nat` with an explicit
`% 2 ^ 16` where the source can overflow.  Rust code that can panic
(out-of-bounds `Vec` indexing) is modelled with `Option`, `none`
standing for the panic.
-/

namespace TtyInterface

/-- A coordinate position in the terminal: column `x`, row `y`.  Both are
`u16` in the source (`src/position.rs`), modelled as `Nat`; wrapping is
applied explicitly in the one operation that can overflow
(`Position.translate`). -/
structure Position where
  x : Nat
  y : Nat
deriving DecidableEq

/-- Reduction of a `Nat` to the range of a `u16`.  Rust release builds wrap
overflowing `u16` addition modulo `2 ^ 16` (debug builds panic). -/
def wrap16 (n : Nat) : Nat := n % 65536

/-- Embedding of `Position::translate` (src/position.rs): plain `u16`
addition of the deltas onto each coordinate, hence wrapping, not
saturating. -/
def Position.translate (p : Position) (diff_x diff_y : Nat) : Position :=
  ⟨wrap16 (p.x + diff_x), wrap16 (p.y + diff_y)⟩

/-- Modelled from the spec's words for comparison: `translate` as a
saturating addition, each coordinate capped at `u16::MAX = 65535`.  The
source does not do this; see the C8 counterexample. -/
def translate_saturating (p : Position) (diff_x diff_y : Nat) : Position :=
  ⟨min (p.x + diff_x) 65535, min (p.y + diff_y) 65535⟩

/-- Embedding of `Ord for Position` (src/position.rs): compare rows first,
then columns. -/
def Position.cmpP (a b : Position) : Ordering :=
  match compare a.y b.y with
  | Ordering.eq => compare a.x b.x
  | ord => ord

/-- The strict `(y, x)` lexicographic order on positions, the propositional
form of `Position.cmpP _ _ = .lt` (see `cmpP_eq_lt_iff`). -/
def posLt (a b : Position) : Prop :=
  a.y < b.y ∨ (a.y = b.y ∧ a.x < b.x)

instance (a b : Position) : Decidable (posLt a b) := by
  unfold posLt; infer_instance

/-- Embedding of `Color` (src/style.rs): the enumeration has exactly these
ten variants in the source. -/
inductive Color where
  | Black
  | Red
  | Green
  | Yellow
  | Blue
  | Magenta
  | Cyan
  | White
  | Grey
  | Reset
deriving DecidableEq, Fintype

/-- The variants of `Color` as they are listed in src/style.rs. -/
def colorVariants : List Color :=
  [Color.Black, Color.Red, Color.Green, Color.Yellow, Color.Blue,
   Color.Magenta, Color.Cyan, Color.White, Color.Grey, Color.Reset]

/-- Embedding of `Style` (src/style.rs): optional foreground and background
colors plus three boolean flags. -/
structure Style where
  foreground_color : Option Color
  background_color : Option Color
  is_bold : Bool
  is_italic : Bool
  is_underline : Bool
deriving DecidableEq

/-- Embedding of `Cell` (src/state.rs): a grapheme cluster and optional
styling.  Equality is field-wise, as derived in the source. -/
structure Cell where
  grapheme : String
  style : Option Style
deriving DecidableEq

/-- Lookup in the cell map, the embedding of `BTreeMap::get`. -/
def mapGet : List (Position × Cell) → Position → Option Cell
  | [], _ => none
  | (q, c) :: rest, p => if p = q then some c else mapGet rest p

/-- Ordered insert-or-replace into the cell map, the embedding of
`BTreeMap::insert`: the list is kept in ascending key order and an entry
with an equal key is replaced. -/
def mapInsert (p : Position) (c : Cell) : List (Position × Cell) → List (Position × Cell)
  | [] => [(p, c)]
  | (q, d) :: rest =>
    if Position.cmpP p q = Ordering.lt then (p, c) :: (q, d) :: rest
    else if p = q then (p, c) :: rest
    else (q, d) :: mapInsert p c rest

/-- Removal from the cell map, the embedding of `BTreeMap::remove`. -/
def mapRemove (p : Position) (m : List (Position × Cell)) : List (Position × Cell) :=
  m.filter (fun e => decide (e.1 ≠ p))

/-- Ordered duplicate-free insert, the embedding of `BTreeSet::insert` for
the dirty set. -/
def setInsert (p : Position) : List Position → List Position
  | [] => [p]
  | q :: rest =>
    if Position.cmpP p q = Ordering.lt then p :: q :: rest
    else if p = q then q :: rest
    else q :: setInsert p rest

/-- Embedding of `State` (src/state.rs): the sparse cell grid and the dirty
set, both as ordered lists. -/
structure State where
  cells : List (Position × Cell)
  dirty : List Position
deriving DecidableEq

/-- Embedding of `State::new`. -/
def State.new : State := ⟨[], []⟩

/-- Embedding of `State::handle_cell_update` (src/state.rs, lines 51-64):
if the new cell equals the stored cell the state is returned untouched,
otherwise the position is marked dirty and the cell stored. -/
def State.handle_cell_update (s : State) (position : Position) (grapheme : String)
    (style : Option Style) : State :=
  if mapGet s.cells position = some ⟨grapheme, style⟩ then s
  else ⟨mapInsert position ⟨grapheme, style⟩ s.cells, setInsert position s.dirty⟩

/-- Embedding of `State::set_text`. -/
def State.set_text (s : State) (position : Position) (grapheme : String) : State :=
  s.handle_cell_update position grapheme none

/-- Embedding of `State::set_styled_text`. -/
def State.set_styled_text (s : State) (position : Position) (grapheme : String)
    (style : Style) : State :=
  s.handle_cell_update position grapheme (some style)

/-- Embedding of `State::handle_cell_clears` (src/state.rs, lines 82-91):
collect the keys matching the predicate, then remove each from the cell
map and insert it into the dirty set. -/
def State.handle_cell_clears (s : State) (filter_predicate : Position → Bool) : State :=
  let cell_positions := (s.cells.map Prod.fst).filter filter_predicate
  cell_positions.foldl (fun st p => ⟨mapRemove p st.cells, setInsert p st.dirty⟩) s

/-- Embedding of `State::clear_line`. -/
def State.clear_line (s : State) (line : Nat) : State :=
  s.handle_cell_clears (fun p => p.y == line)

/-- Embedding of `State::clear_rest_of_line`. -/
def State.clear_rest_of_line (s : State) (fromP : Position) : State :=
  s.handle_cell_clears (fun p => p.y == fromP.y && decide (fromP.x ≤ p.x))

/-- Embedding of `State::clear_rest_of_interface`: the source predicate is
`*position >= &from`, which under the derived `Ord` is
`cmp position from ≠ Less`. -/
def State.clear_rest_of_interface (s : State) (fromP : Position) : State :=
  s.handle_cell_clears (fun p => decide (Position.cmpP p fromP ≠ Ordering.lt))

/-- Embedding of `State::clear_dirty`. -/
def State.clear_dirty (s : State) : State := ⟨s.cells, []⟩

/-- Embedding of `State::dirty_iter` together with `StateIter::next`
(src/state.rs): the dirty set is materialised in ascending order and each
position is paired with the map lookup at that position. -/
def State.dirty_iter (s : State) : List (Position × Option Cell) :=
  s.dirty.map (fun p => (p, mapGet s.cells p))

/-- The cell stored at a position, `none` when the position is absent. -/
def cellAt (s : State) (p : Position) : Option Cell := mapGet s.cells p

/-- The spec's State invariant: no stored cell has an empty grapheme. -/
def noEmptyGrapheme (s : State) : Prop :=
  ∀ p c, cellAt s p = some c → c.grapheme ≠ ""

/-- Embedding of `Vector` (src/lib.rs): a size, columns `x` by rows `y`. -/
structure Vector where
  x : Nat
  y : Nat
deriving DecidableEq

/-- Embedding of the early monolithic `Interface` (src/lib.rs): a dense
row-major grid of grapheme strings, a committed grid and an optional
staged alternate. -/
structure OldInterface where
  size : Vector
  current_cells : List (List String)
  alternate_cells : Option (List (List String))
deriving DecidableEq

/-- Write at an index of a list; `none` models the Rust index-out-of-bounds
panic. -/
def listSet {α : Type} : List α → Nat → α → Option (List α)
  | [], _, _ => none
  | _ :: rest, 0, a => some (a :: rest)
  | b :: rest, n + 1, a => (listSet rest n a).map (fun l => b :: l)

/-- Write one grapheme into the dense grid at `(line, column)`; `none`
models the panic of `alternate_cells[line][column]` when either index is
out of bounds. -/
def gridSet (cells : List (List String)) (line column : Nat) (g : String) :
    Option (List (List String)) :=
  match cells.get? line with
  | none => none
  | some row =>
    match listSet row column g with
    | none => none
    | some row2 => listSet cells line row2

/-- Embedding of the placement loop of `Interface::set` (src/lib.rs, lines
57-66): before each write, wrap to column 0 of the next row when the
column index exceeds `size.x`; then write and advance the column. -/
def setLoop (sizeX : Nat) : List String → List (List String) → Nat → Nat →
    Option (List (List String))
  | [], cells, _, _ => some cells
  | g :: rest, cells, line, column =>
    let lc : Nat × Nat := if column > sizeX then (line + 1, 0) else (line, column)
    match gridSet cells lc.1 lc.2 g with
    | none => none
    | some cells2 => setLoop sizeX rest cells2 lc.1 (lc.2 + 1)

/-- Embedding of `Interface::set` (src/lib.rs, lines 51-67): ensure an
alternate grid exists (cloning the current one) and run the placement
loop over the grapheme clusters of the text.  Grapheme segmentation is
external (`unicode_segmentation`), so the text is taken here as its list
of clusters. -/
def oldSet (itf : OldInterface) (position : Position) (text : List String) :
    Option OldInterface :=
  let alt := itf.alternate_cells.getD itf.current_cells
  (setLoop itf.size.x text alt position.y position.x).map
    (fun cells => { itf with alternate_cells := some cells })

/-- Modelled from the spec's words for comparison: the same placement loop
but wrapping when the column index exceeds `size.x - 1`, the last legal
column.  Used to exhibit the C3 divergence. -/
def setLoopSpec (sizeX : Nat) : List String → List (List String) → Nat → Nat →
    Option (List (List String))
  | [], cells, _, _ => some cells
  | g :: rest, cells, line, column =>
    let lc : Nat × Nat := if column > sizeX - 1 then (line + 1, 0) else (line, column)
    match gridSet cells lc.1 lc.2 g with
    | none => none
    | some cells2 => setLoopSpec sizeX rest cells2 lc.1 (lc.2 + 1)

/-- The terminal commands the early `Interface::apply` queues on the
device: a full clear, per-cell cursor moves and prints, and the final
flush. -/
inductive Command where
  | clearAll : Command
  | moveTo : Nat → Nat → Command
  | print : String → Command
  | flush : Command
deriving DecidableEq

/-- The grapheme text of the dense grid at `(line, column)`.  Total here:
`apply` only indexes within `size`, and the grids built by `new` and
preserved by `set` always have that shape. -/
def cellText (cells : List (List String)) (line column : Nat) : String :=
  (cells.getD line []).getD column ""

/-- The full command sequence `Interface::apply` (src/lib.rs, lines 85-94)
queues for a grid: `Clear All`, then for every cell in row-major order a
`MoveTo` and a `Print`, then the flush. -/
def applyCommands (size : Vector) (cells : List (List String)) : List Command :=
  Command.clearAll ::
    ((List.range size.y).flatMap (fun line =>
      (List.range size.x).flatMap (fun column =>
        [Command.moveTo column line, Command.print (cellText cells line column)])) ++
      [Command.flush])

/-- Emit commands one by one on a device.  The device is a predicate saying
whether the n-th operation succeeds; the first failing operation emits
nothing further and reports failure (the `?` early return in `apply`). -/
def emitAll (dev : Nat → Bool) : Nat → List Command → List Command × Bool
  | _, [] => ([], true)
  | n, c :: rest =>
    if dev n then
      let r := emitAll dev (n + 1) rest
      (c :: r.1, r.2)
    else ([], false)

/-- Result of one `apply` call: the interface afterwards, the commands that
reached the device, and whether the call returned `Ok`. -/
structure ApplyOut where
  itf : OldInterface
  emitted : List Command
  ok : Bool
deriving DecidableEq

/-- Embedding of `Interface::apply` (src/lib.rs, lines 77-97): return at
once when nothing is staged; otherwise first take the alternate and swap
it into `current_cells`, then emit the command sequence, stopping at the
first device failure. -/
def applyOld (dev : Nat → Bool) (itf : OldInterface) : ApplyOut :=
  match itf.alternate_cells with
  | none => ⟨itf, [], true⟩
  | some alt =>
    let itf2 : OldInterface := { itf with current_cells := alt, alternate_cells := none }
    let r := emitAll dev 0 (applyCommands itf2.size itf2.current_cells)
    ⟨itf2, r.1, r.2⟩

/-- A small concrete state with cells at (0,0), (1,1) and (2,1), used by
witnesses. -/
def demoState : State :=
  ((State.new.set_text ⟨0, 0⟩ "A").set_text ⟨1, 1⟩ "B").set_text ⟨2, 1⟩ "C"

/-- A 2-column by 2-row empty dense grid. -/
def demoGrid : List (List String) := [["", ""], ["", ""]]

/-- Early interface, 2 columns by 2 rows, nothing staged: the C3 failing
input. -/
def demoOld3 : OldInterface := ⟨⟨2, 2⟩, demoGrid, none⟩

/-- A 1 by 1 early interface with nothing staged, for the C4 witness. -/
def demoOldNoAlt : OldInterface := ⟨⟨1, 1⟩, [["X"]], none⟩

/-- A 1 by 1 early interface with a staged alternate, for the C5 witness. -/
def demoOldAlt : OldInterface := ⟨⟨1, 1⟩, [[""]], some [["X"]]⟩

theorem cmpP_eq_lt_iff (a b : Position) : Position.cmpP a b = Ordering.lt ↔ posLt a b := by
  unfold Position.cmpP posLt
  rcases Nat.lt_trichotomy a.y b.y with h | h | h
  · simp [Nat.compare_eq_lt.mpr h, h]
  · simp only [Nat.compare_eq_eq.mpr h, Nat.compare_eq_lt]
    omega
  · simp [Nat.compare_eq_gt.mpr h]
    omega

theorem posLt_trans {a b c : Position} (h1 : posLt a b) (h2 : posLt b c) : posLt a c := by
  unfold posLt at *
  omega

theorem posLt_of_not_lt {a b : Position} (h1 : ¬ posLt a b) (h2 : a ≠ b) : posLt b a := by
  have hne : a.x ≠ b.x ∨ a.y ≠ b.y := by
    by_contra hc
    push_neg at hc
    exact h2 (by cases a; cases b; simp_all)
  unfold posLt at *
  omega

theorem posLt_irrefl (a : Position) : ¬ posLt a a := by
  unfold posLt
  omega

theorem mem_setInsert (p q : Position) (l : List Position) :
    q ∈ setInsert p l ↔ q = p ∨ q ∈ l := by
  induction l with
  | nil => simp [setInsert]
  | cons r rest ih =>
    unfold setInsert
    by_cases h1 : Position.cmpP p r = Ordering.lt
    · simp only [if_pos h1, List.mem_cons]
    · by_cases h2 : p = r
      · subst h2
        rw [if_neg h1, if_pos rfl]
        simp only [List.mem_cons]
        tauto
      · rw [if_neg h1, if_neg h2]
        simp only [List.mem_cons, ih]
        tauto

theorem pairwise_setInsert (p : Position) (l : List Position) (h : l.Pairwise posLt) :
    (setInsert p l).Pairwise posLt := by
  induction l with
  | nil => simp [setInsert]
  | cons r rest ih =>
    rcases List.pairwise_cons.mp h with ⟨hr, hrest⟩
    by_cases h1 : Position.cmpP p r = Ordering.lt
    · have hpr : posLt p r := (cmpP_eq_lt_iff p r).mp h1
      simp only [setInsert, h1, if_pos]
      refine List.pairwise_cons.mpr ⟨?_, h⟩
      intro x hx
      rcases List.mem_cons.mp hx with rfl | hx
      · exact hpr
      · exact posLt_trans hpr (hr x hx)
    · by_cases h2 : p = r
      · subst h2
        simp only [setInsert, h1, if_neg, if_pos rfl]
        exact h
      · have hrp : posLt r p :=
          posLt_of_not_lt (fun hlt => h1 ((cmpP_eq_lt_iff p r).mpr hlt)) h2
        simp only [setInsert, h1, h2, if_neg]
        refine List.pairwise_cons.mpr ⟨?_, ih hrest⟩
        intro x hx
        rcases (mem_setInsert p x rest).mp hx with rfl | hx
        · exact hrp
        · exact hr x hx

theorem mapGet_mapInsert_self (p : Position) (c : Cell) (m : List (Position × Cell)) :
    mapGet (mapInsert p c m) p = some c := by
  induction m with
  | nil => simp [mapInsert, mapGet]
  | cons e rest ih =>
    obtain ⟨q, d⟩ := e
    by_cases h1 : Position.cmpP p q = Ordering.lt
    · simp [mapInsert, h1, mapGet]
    · by_cases h2 : p = q
      · subst h2
        simp [mapInsert, h1, mapGet]
      · simp [mapInsert, h1, h2, mapGet, ih]

theorem mapGet_mapInsert_ne (p q : Position) (c : Cell) (m : List (Position × Cell))
    (h : q ≠ p) : mapGet (mapInsert p c m) q = mapGet m q := by
  induction m with
  | nil => simp [mapInsert, mapGet, h]
  | cons e rest ih =>
    obtain ⟨r, d⟩ := e
    by_cases h1 : Position.cmpP p r = Ordering.lt
    · simp [mapInsert, h1, mapGet, h]
    · by_cases h2 : p = r
      · subst h2
        simp [mapInsert, h1, mapGet, h]
      · simp [mapInsert, h1, h2, mapGet, ih]

theorem mapGet_mapRemove (p q : Position) (m : List (Position × Cell)) :
    mapGet (mapRemove p m) q = if q = p then none else mapGet m q := by
  induction m with
  | nil => simp [mapRemove, mapGet]
  | cons e rest ih =>
    obtain ⟨r, d⟩ := e
    by_cases hr : r = p
    · subst hr
      by_cases hq : q = r
      · subst hq
        simp [mapRemove, mapGet, List.filter] at *
        simpa using ih
      · simp [mapRemove, List.filter, mapGet, hq] at *
        simpa [hq] using ih
    · by_cases hq : q = r
      · subst hq
        simp [mapRemove, List.filter, hr, mapGet]
      · simp [mapRemove, List.filter, hr, mapGet, hq] at *
        simpa [hq] using ih

theorem mapGet_ne_none_iff (m : List (Position × Cell)) (q : Position) :
    mapGet m q ≠ none ↔ q ∈ m.map Prod.fst := by
  induction m with
  | nil => simp [mapGet]
  | cons e rest ih =>
    obtain ⟨r, d⟩ := e
    by_cases hq : q = r
    · subst hq
      simp [mapGet]
    · simp [mapGet, hq, ih]

theorem foldl_clearStep_cells (l : List Position) (s : State) :
    (l.foldl (fun st p => State.mk (mapRemove p st.cells) (setInsert p st.dirty)) s).cells =
      l.foldl (fun m p => mapRemove p m) s.cells := by
  induction l generalizing s with
  | nil => rfl
  | cons p rest ih => simp [List.foldl_cons, ih]

theorem foldl_clearStep_dirty (l : List Position) (s : State) :
    (l.foldl (fun st p => State.mk (mapRemove p st.cells) (setInsert p st.dirty)) s).dirty =
      l.foldl (fun d p => setInsert p d) s.dirty := by
  induction l generalizing s with
  | nil => rfl
  | cons p rest ih => simp [List.foldl_cons, ih]

theorem foldl_mapRemove_get (l : List Position) (m : List (Position × Cell)) (q : Position) :
    mapGet (l.foldl (fun m p => mapRemove p m) m) q =
      if q ∈ l then none else mapGet m q := by
  induction l generalizing m with
  | nil => simp
  | cons p rest ih =>
    simp only [List.foldl_cons, ih, mapGet_mapRemove, List.mem_cons]
    by_cases hq : q ∈ rest
    · simp [hq]
    · by_cases hp : q = p
      · simp [hq, hp]
      · simp [hq, hp]

theorem foldl_setInsert_mem (l : List Position) (d : List Position) (q : Position) :
    q ∈ l.foldl (fun d p => setInsert p d) d ↔ q ∈ d ∨ q ∈ l := by
  induction l generalizing d with
  | nil => simp
  | cons p rest ih =>
    simp only [List.foldl_cons, ih, mem_setInsert, List.mem_cons]
    tauto

theorem foldl_setInsert_pairwise (l : List Position) (d : List Position)
    (h : d.Pairwise posLt) : (l.foldl (fun d p => setInsert p d) d).Pairwise posLt := by
  induction l generalizing d with
  | nil => exact h
  | cons p rest ih => exact ih (setInsert p d) (pairwise_setInsert p d h)

theorem mem_filteredKeys (s : State) (pred : Position → Bool) (q : Position) :
    q ∈ (s.cells.map Prod.fst).filter pred ↔ pred q = true ∧ cellAt s q ≠ none := by
  rw [List.mem_filter]
  unfold cellAt
  rw [mapGet_ne_none_iff]
  tauto

theorem clears_cellAt (s : State) (pred : Position → Bool) (q : Position) :
    cellAt (s.handle_cell_clears pred) q =
      if pred q = true ∧ cellAt s q ≠ none then none else cellAt s q := by
  have h0 : cellAt (s.handle_cell_clears pred) q =
      if q ∈ (s.cells.map Prod.fst).filter pred then none else cellAt s q := by
    unfold State.handle_cell_clears cellAt
    rw [foldl_clearStep_cells, foldl_mapRemove_get]
  rw [h0]
  by_cases h1 : pred q = true ∧ cellAt s q ≠ none
  · rw [if_pos ((mem_filteredKeys s pred q).mpr h1), if_pos h1]
  · rw [if_neg (fun hmem => h1 ((mem_filteredKeys s pred q).mp hmem)), if_neg h1]

theorem clears_dirty_mem (s : State) (pred : Position → Bool) (q : Position) :
    q ∈ (s.handle_cell_clears pred).dirty ↔
      q ∈ s.dirty ∨ (pred q = true ∧ cellAt s q ≠ none) := by
  unfold State.handle_cell_clears
  rw [foldl_clearStep_dirty, foldl_setInsert_mem, mem_filteredKeys]

theorem clears_dirty_pairwise (s : State) (pred : Position → Bool)
    (h : s.dirty.Pairwise posLt) : (s.handle_cell_clears pred).dirty.Pairwise posLt := by
  unfold State.handle_cell_clears
  rw [foldl_clearStep_dirty]
  exact foldl_setInsert_pairwise _ _ h

theorem update_dirty_pairwise (s : State) (p : Position) (g : String) (st : Option Style)
    (h : s.dirty.Pairwise posLt) : (s.handle_cell_update p g st).dirty.Pairwise posLt := by
  unfold State.handle_cell_update
  by_cases hc : mapGet s.cells p = some ⟨g, st⟩
  · simpa [hc] using h
  · simpa [hc] using pairwise_setInsert p s.dirty h

/-- C1: for every state, position, grapheme and optional style, when the
staged cell equals the cell stored at the position, `handle_cell_update`
(the common body of `set_text` and `set_styled_text`) leaves both `cells`
and `dirty` completely unchanged; otherwise it stores the new cell at the
position, leaves every other cell unchanged, and adds exactly that
position to `dirty`.  The last two conjuncts record that `set_text` and
`set_styled_text` are this operation at `none` and `some style`. -/
theorem handle_cell_update_spec (s : State) (p : Position) (g : String) (st : Option Style) :
    (cellAt s p = some ⟨g, st⟩ → s.handle_cell_update p g st = s) ∧
    (cellAt s p ≠ some ⟨g, st⟩ →
      cellAt (s.handle_cell_update p g st) p = some ⟨g, st⟩ ∧
      (∀ q, q ≠ p → cellAt (s.handle_cell_update p g st) q = cellAt s q) ∧
      p ∈ (s.handle_cell_update p g st).dirty ∧
      (∀ q, q ∈ (s.handle_cell_update p g st).dirty ↔ q = p ∨ q ∈ s.dirty)) ∧
    s.set_text p g = s.handle_cell_update p g none ∧
    (∀ stv : Style, s.set_styled_text p g stv = s.handle_cell_update p g (some stv)) := by
  refine ⟨?_, ?_, rfl, fun _ => rfl⟩
  · intro h
    have h2 : mapGet s.cells p = some ⟨g, st⟩ := h
    unfold State.handle_cell_update
    rw [if_pos h2]
  · intro h
    have h2 : mapGet s.cells p ≠ some ⟨g, st⟩ := h
    unfold cellAt State.handle_cell_update
    rw [if_neg h2]
    exact ⟨mapGet_mapInsert_self p ⟨g, st⟩ s.cells,
      fun q hq => mapGet_mapInsert_ne p q ⟨g, st⟩ s.cells hq,
      (mem_setInsert p p s.dirty).mpr (Or.inl rfl),
      fun q => mem_setInsert p q s.dirty⟩

theorem handle_cell_update_witness :
    cellAt (State.new.handle_cell_update ⟨0, 0⟩ "A" none) ⟨0, 0⟩ = some ⟨"A", none⟩ :=
  ((handle_cell_update_spec State.new ⟨0, 0⟩ "A" none).2.1 (by decide)).1

/-- C2: for a state whose dirty set satisfies the BTreeSet ordering
invariant, `dirty_iter` yields exactly one pair per dirty position, in
strictly increasing `(y, x)` lexicographic order, pairing each position
with `some cell` when it is present in `cells` and `none` when it is
absent. -/
theorem dirty_iter_spec (s : State) (h : s.dirty.Pairwise posLt) :
    s.dirty_iter.map Prod.fst = s.dirty ∧
    s.dirty_iter.Pairwise (fun a b => posLt a.1 b.1) ∧
    (∀ p oc, (p, oc) ∈ s.dirty_iter ↔ p ∈ s.dirty ∧ oc = cellAt s p) := by
  refine ⟨?_, ?_, ?_⟩
  · have hid : (Prod.fst ∘ fun p : Position => (p, mapGet s.cells p)) = id := rfl
    simp [State.dirty_iter, List.map_map, hid]
  · exact List.Pairwise.map _ (fun a b hab => hab) h
  · intro p oc
    simp only [State.dirty_iter, List.mem_map, Prod.mk.injEq, cellAt]
    constructor
    · rintro ⟨q, hq, rfl, rfl⟩
      exact ⟨hq, rfl⟩
    · rintro ⟨hp, rfl⟩
      exact ⟨p, hp, rfl, rfl⟩

theorem dirty_iter_witness : demoState.dirty_iter.map Prod.fst = demoState.dirty :=
  (dirty_iter_spec demoState (by decide)).1

/-- C6: `clear_rest_of_interface from` empties exactly the cells at
positions at or after `from` in the `(y, x)` total order, leaves every
cell strictly before `from` untouched, and the resulting dirty set is the
old one plus exactly the removed positions. -/
theorem clear_rest_of_interface_spec (s : State) (fromP : Position) :
    (∀ p, ¬ posLt p fromP → cellAt (s.clear_rest_of_interface fromP) p = none) ∧
    (∀ p, posLt p fromP → cellAt (s.clear_rest_of_interface fromP) p = cellAt s p) ∧
    (∀ p, p ∈ (s.clear_rest_of_interface fromP).dirty ↔
      p ∈ s.dirty ∨ (¬ posLt p fromP ∧ cellAt s p ≠ none)) := by
  have hpred : ∀ p : Position,
      (decide (Position.cmpP p fromP ≠ Ordering.lt) = true) ↔ ¬ posLt p fromP := by
    intro p
    simp only [decide_eq_true_eq]
    exact not_congr (cmpP_eq_lt_iff p fromP)
  unfold State.clear_rest_of_interface
  refine ⟨?_, ?_, ?_⟩
  · intro p hp
    rw [clears_cellAt]
    by_cases hc : cellAt s p = none
    · split_ifs with hif
      · rfl
      · exact hc
    · rw [if_pos ⟨(hpred p).mpr hp, hc⟩]
  · intro p hp
    rw [clears_cellAt, if_neg]
    rintro ⟨hp2, _⟩
    exact ((hpred p).mp hp2) hp
  · intro p
    rw [clears_dirty_mem]
    simp only [hpred p]

theorem clear_rest_of_interface_witness :
    cellAt (demoState.clear_rest_of_interface ⟨1, 1⟩) ⟨2, 1⟩ = none :=
  (clear_rest_of_interface_spec demoState ⟨1, 1⟩).1 ⟨2, 1⟩ (by decide)

/-- C7 is refuted as stated: the operations accept raw strings and never
test for emptiness, so a fresh state satisfies the no-empty-grapheme
invariant and a single `set_text` with the empty string breaks it. -/
theorem set_text_empty_grapheme_cx :
    noEmptyGrapheme State.new ∧ ¬ noEmptyGrapheme (State.new.set_text ⟨0, 0⟩ "") := by
  constructor
  · intro p c h
    exact absurd h (by simp [cellAt, State.new, mapGet])
  · intro hinv
    exact hinv ⟨0, 0⟩ ⟨"", none⟩ (by decide) rfl

/-- C7 (amended): the no-empty-grapheme invariant is preserved by every
clear operation and by `clear_dirty` unconditionally, and by
`handle_cell_update` (hence `set_text` and `set_styled_text`) whenever
the grapheme argument is nonempty — which is what the callers supply,
since grapheme clusters of a segmented text are never empty. -/
theorem no_empty_grapheme_invariant (s : State) (hs : noEmptyGrapheme s) :
    (∀ p g st, g ≠ "" → noEmptyGrapheme (s.handle_cell_update p g st)) ∧
    (∀ line, noEmptyGrapheme (s.clear_line line)) ∧
    (∀ fromP, noEmptyGrapheme (s.clear_rest_of_line fromP)) ∧
    (∀ fromP, noEmptyGrapheme (s.clear_rest_of_interface fromP)) ∧
    noEmptyGrapheme s.clear_dirty := by
  have hclears : ∀ pred, noEmptyGrapheme (s.handle_cell_clears pred) := by
    intro pred p c h
    rw [clears_cellAt] at h
    by_cases h1 : pred p = true ∧ cellAt s p ≠ none
    · rw [if_pos h1] at h
      exact absurd h (by simp)
    · rw [if_neg h1] at h
      exact hs p c h
  refine ⟨?_, fun line => hclears _, fun fromP => hclears _, fun fromP => hclears _,
    fun p c h => hs p c h⟩
  intro p g st hg q c h
  unfold State.handle_cell_update at h
  by_cases hc : mapGet s.cells p = some ⟨g, st⟩
  · rw [if_pos hc] at h
    exact hs q c h
  · rw [if_neg hc] at h
    simp only [cellAt] at h
    by_cases hq : q = p
    · subst hq
      rw [mapGet_mapInsert_self] at h
      injection h with h2
      rw [← h2]
      exact hg
    · rw [mapGet_mapInsert_ne p q ⟨g, st⟩ s.cells hq] at h
      exact hs q c h

theorem no_empty_grapheme_witness :
    noEmptyGrapheme (State.new.handle_cell_update ⟨0, 0⟩ "A" none) :=
  (no_empty_grapheme_invariant State.new
    (fun p c h => absurd h (by simp [cellAt, State.new, mapGet]))).1
    ⟨0, 0⟩ "A" none (by decide)

/-- C10: clearing the rest of the line from column 0 of row `y` is the
very same operation as clearing the whole line `y`: the two predicates
agree on every position, so both the cell map and the dirty set of the
results coincide. -/
theorem clear_rest_of_line_at_zero (s : State) (y : Nat) :
    (s.clear_rest_of_line ⟨0, y⟩).cells = (s.clear_line y).cells ∧
    (s.clear_rest_of_line ⟨0, y⟩).dirty = (s.clear_line y).dirty := by
  have hfun : (fun p : Position =>
        p.y == (⟨0, y⟩ : Position).y && decide ((⟨0, y⟩ : Position).x ≤ p.x)) =
      (fun p : Position => p.y == y) := by
    funext p
    simp
  unfold State.clear_rest_of_line State.clear_line
  rw [hfun]
  exact ⟨rfl, rfl⟩

/-- C8 is refuted as stated: translating (65535, 0) by (1, 0) wraps the
column to 0; a saturating addition would leave it at 65535. -/
theorem translate_not_saturating :
    Position.translate ⟨65535, 0⟩ 1 0 ≠ translate_saturating ⟨65535, 0⟩ 1 0 := by
  decide

/-- C8 (amended): `translate` adds the deltas to the coordinates with
wrapping 16-bit unsigned arithmetic — modulo 2^16, the release-build
semantics of the plain `+` in the source — not saturating arithmetic;
being a pure function of the input position, it leaves that position
unchanged. -/
theorem translate_wraps (x y dx dy : Nat) (hx : x < 65536) (hy : y < 65536)
    (hdx : dx < 65536) (hdy : dy < 65536) :
    Position.translate ⟨x, y⟩ dx dy =
      ⟨if x + dx < 65536 then x + dx else x + dx - 65536,
       if y + dy < 65536 then y + dy else y + dy - 65536⟩ := by
  unfold Position.translate wrap16
  simp only [Position.mk.injEq]
  constructor <;> split_ifs <;> omega

theorem translate_wraps_witness :
    Position.translate ⟨65535, 0⟩ 1 0 =
      ⟨if 65535 + 1 < 65536 then 65535 + 1 else 65535 + 1 - 65536,
       if 0 + 0 < 65536 then 0 + 0 else 0 + 0 - 65536⟩ :=
  translate_wraps 65535 0 1 0 (by decide) (by decide) (by decide) (by decide)

/-- C9 is refuted as stated: the `Color` enumeration of src/style.rs does
not have seventeen variants. -/
theorem color_card_ne_seventeen : Fintype.card Color ≠ 17 := by decide

/-- C9 (amended): `Color` is a closed enumeration with exactly the ten
variants Black, Red, Green, Yellow, Blue, Magenta, Cyan, White, Grey,
Reset, and no others. -/
theorem color_variants_exactly_ten :
    (∀ c : Color, c ∈ colorVariants) ∧ colorVariants.Nodup ∧
    colorVariants.length = 10 ∧ Fintype.card Color = 10 := by
  refine ⟨fun c => ?_, by decide, rfl, by decide⟩
  cases c <;> decide

/-- C3 is a code bug: the wrap test of the early `Interface::set` fires
only when the column index exceeds `size.x` rather than `size.x - 1`, so
with a 2-column interface, placing two clusters starting at the last
legal column (1, 0) first writes (1, 0) and then indexes the row at
column 2, out of bounds — the model returns `none` where the Rust code
panics.  The spec-modelled loop that wraps past `size.x - 1` instead
places the second cluster at (0, 1), as the claim states. -/
theorem set_wrap_out_of_bounds :
    oldSet demoOld3 ⟨1, 0⟩ ["A", "B"] = none ∧
    setLoopSpec demoOld3.size.x ["A", "B"] demoGrid 0 1 = some [["", "A"], ["B", ""]] := by
  constructor
  · rfl
  · rfl

/-- C4: `apply` with nothing staged returns Ok immediately with no
emission, and — because every `apply` leaves `alternate` empty — a second
`apply` right after any `apply` emits nothing and succeeds, whatever the
device did the first time. -/
theorem apply_noop_when_unstaged (itf : OldInterface) (dev : Nat → Bool) :
    (itf.alternate_cells = none → applyOld dev itf = ⟨itf, [], true⟩) ∧
    (∀ dev2, (applyOld dev2 (applyOld dev itf).itf).emitted = [] ∧
      (applyOld dev2 (applyOld dev itf).itf).ok = true) := by
  constructor
  · intro h
    simp [applyOld, h]
  · intro dev2
    have hnone : ∀ j : OldInterface, j.alternate_cells = none →
        applyOld dev2 j = ⟨j, [], true⟩ := by
      intro j hj
      simp [applyOld, hj]
    have halt : (applyOld dev itf).itf.alternate_cells = none := by
      cases h2 : itf.alternate_cells <;> simp [applyOld, h2]
    rw [hnone _ halt]
    exact ⟨rfl, rfl⟩

theorem apply_noop_witness :
    applyOld (fun _ => true) demoOldNoAlt = ⟨demoOldNoAlt, [], true⟩ :=
  (apply_noop_when_unstaged demoOldNoAlt (fun _ => true)).1 rfl

/-- C5: the swap precedes all emission: after `apply` on a staged
alternate — whether the device succeeds or fails at any point —
`current_cells` is the staged grid, `alternate_cells` is `None`, and an
immediate retry of `apply` is a no-op that emits nothing. -/
theorem apply_swap_before_emit (itf : OldInterface) (alt : List (List String))
    (dev : Nat → Bool) (h : itf.alternate_cells = some alt) :
    (applyOld dev itf).itf.current_cells = alt ∧
    (applyOld dev itf).itf.alternate_cells = none ∧
    (∀ dev2, applyOld dev2 (applyOld dev itf).itf = ⟨(applyOld dev itf).itf, [], true⟩) := by
  refine ⟨by simp [applyOld, h], by simp [applyOld, h], fun dev2 => by simp [applyOld, h]⟩

theorem apply_swap_witness :
    (applyOld (fun _ => false) demoOldAlt).itf.current_cells = [["X"]] ∧
    (applyOld (fun _ => false) demoOldAlt).ok = false :=
  ⟨(apply_swap_before_emit demoOldAlt [["X"]] (fun _ => false) rfl).1, by decide⟩

end TtyInterface
